import Mathlib

/-!
Shallow embedding of the UPC merge tool's reconciliation pipeline.

The embedded code is the per-run data transformation of
`upc_merge_tool_dynamic_header_detection.py` (its logic is shared verbatim by
`upc_merge_tool_multi_sheet_enabled.py`, `upc_merge_tool_fully_flexible_v2.py`
and `upc_merge_tool_fully_flexible_manual_description.py`), plus the barcode
normalization of `upc_merge_tool_auto_detect_case_insensitive.py`.

Cells of a pandas DataFrame are modelled as `Option String` (`none` = NaN),
rows as association lists from column name to cell, and the pandas string
methods used by the tool (`astype(str)`, `str.replace(r'\.0$', ...)`,
`str.extract(r'(\d+)')`, `fillna`, `str.zfill`, `str.split`, `str.strip`,
`str.upper`) as explicit functions on `List Char` / `String`.
-/

set_option autoImplicit false

namespace UPCMerge

/-- ASCII whitespace matched by Python's regex class and by `str.strip`. -/
def isPySpace (c : Char) : Bool :=
  c = ' ' || c = '\t' || c = '\n' || c = '\r' || c = '\x0b' || c = '\x0c'

/-- ASCII lowercasing, the effect of Python `str.lower` on ASCII text. -/
def asciiLower (c : Char) : Char :=
  if 'A' ≤ c ∧ c ≤ 'Z' then Char.ofNat (c.toNat + 32) else c

/-- ASCII uppercasing, the effect of Python `str.upper` on ASCII text. -/
def asciiUpper (c : Char) : Char :=
  if 'a' ≤ c ∧ c ≤ 'z' then Char.ofNat (c.toNat - 32) else c

/-- Python `str.upper` on a whole string (ASCII model). -/
def asciiUpperStr (s : String) : String :=
  String.mk (s.toList.map asciiUpper)

/-- Python `str.zfill` on a character list: left-pad with `'0'` to the given
width, keeping a leading sign character in front of the padding. -/
def zfillChars (width : Nat) (l : List Char) : List Char :=
  match l with
  | [] => List.replicate width '0'
  | c :: rest =>
    if c = '+' ∨ c = '-' then c :: (List.replicate (width - (c :: rest).length) '0' ++ rest)
    else List.replicate (width - (c :: rest).length) '0' ++ (c :: rest)

/-- Python `str.zfill` on strings. -/
def zfill (width : Nat) (s : String) : String :=
  String.mk (zfillChars width s.toList)

/-- The first maximal run of decimal digits in a character list, the capture of
pandas `str.extract(r'(\d+)', expand=False)`; empty when no digit occurs
(the regex does not match and the subsequent `fillna('')` yields `''`). -/
def firstDigitRun : List Char → List Char
  | [] => []
  | c :: cs => if c.isDigit then c :: cs.takeWhile Char.isDigit else firstDigitRun cs

/-- The effect of pandas `str.replace(r'\.0$', '', regex=True)`: remove one
trailing `".0"` when present. -/
def stripTrailingDot0 (l : List Char) : List Char :=
  if l.reverse.take 2 = ['0', '.'] then (l.reverse.drop 2).reverse else l

/-- The source-side barcode normalization chain
`astype(str).str.replace(r'\.0$','',regex=True).str.extract(r'(\d+)',expand=False).fillna('').str.zfill(12)`
applied to one (already text-coerced) value. -/
def normalize_source_barcode (s : String) : String :=
  zfill 12 (String.mk (firstDigitRun (stripTrailingDot0 s.toList)))

/-- The catalog-side barcode normalization chain
`astype(str).str.extract(r'(\d+)',expand=False).fillna('').str.zfill(12)`
applied to one value (no trailing-`".0"` strip). -/
def normalize_partner_barcode (s : String) : String :=
  zfill 12 (String.mk (firstDigitRun s.toList))

/-- The barcode normalization of the auto-detect variant
(`upc_merge_tool_auto_detect_case_insensitive.py`): `astype(str).str.zfill(12)`
with no digit extraction and no trailing-`".0"` strip. -/
def normalize_auto_barcode (s : String) : String :=
  zfill 12 s

/-- The status lambda `'Existing' if x in existing_barcodes else 'New'`. -/
def statusOf (existing : List String) (x : String) : String :=
  if x ∈ existing then "Existing" else "New"

/-! ### Description parsing (`extract_size_components`) -/

/-- Does the second list start with the first one? -/
def beginsWith : List Char → List Char → Bool
  | [], _ => true
  | _ :: _, [] => false
  | p :: ps, c :: cs => p = c && beginsWith ps cs

/-- The alternation `oz|fl oz|l|ml|gallon|gal` of the size regex, in source
order. -/
def unitTokens : List (List Char) :=
  [['o', 'z'], ['f', 'l', ' ', 'o', 'z'], ['l'], ['m', 'l'],
   ['g', 'a', 'l', 'l', 'o', 'n'], ['g', 'a', 'l']]

/-- First unit token of the alternation matching at the head of the input. -/
def matchUnit (l : List Char) : Option (List Char) :=
  unitTokens.find? (fun t => beginsWith t l)

/-- The `\s?` before the unit: a unit match after one optional whitespace
character.  (Backtracking is irrelevant here: no unit token starts with a
whitespace character, so consuming an available whitespace is forced.) -/
def matchUnitOptSpace (l : List Char) : Option (List Char) :=
  match l with
  | [] => none
  | c :: r => if isPySpace c then matchUnit r else matchUnit (c :: r)

/-- The number group `(\d+(\.\d+)?)` at the head of the input, returning the
matched text and the remainder.  Maximal munch is equivalent to the regex's
greedy backtracking for this pattern: giving back digits leaves a digit as the
next character, on which neither `\s?`-then-unit nor `ct` can match. -/
def matchNumber (l : List Char) : Option (List Char × List Char) :=
  let ds := l.takeWhile Char.isDigit
  let rest := l.dropWhile Char.isDigit
  if ds.isEmpty then none
  else
    match rest with
    | '.' :: r =>
      let ds2 := r.takeWhile Char.isDigit
      if ds2.isEmpty then some (ds, rest)
      else some (ds ++ '.' :: ds2, r.dropWhile Char.isDigit)
    | _ => some (ds, rest)

/-- One anchored attempt of the size regex `(\d+(\.\d+)?)\s?(oz|fl oz|l|ml|gallon|gal)`,
returning (number text, matched unit token). -/
def matchSizeAt (l : List Char) : Option (List Char × List Char) :=
  match matchNumber l with
  | none => none
  | some (num, rest) =>
    match matchUnitOptSpace rest with
    | none => none
    | some u => some (num, u)

/-- `re.search` for the size regex: leftmost successful anchored attempt. -/
def searchSize : List Char → Option (List Char × List Char)
  | [] => none
  | c :: cs =>
    match matchSizeAt (c :: cs) with
    | some res => some res
    | none => searchSize cs

/-- One anchored attempt of the count regex `(\d+)\s?ct`, returning the digit
group. -/
def matchCountAt (l : List Char) : Option (List Char) :=
  let ds := l.takeWhile Char.isDigit
  if ds.isEmpty then none
  else
    match l.dropWhile Char.isDigit with
    | [] => none
    | c :: r =>
      if isPySpace c then (if beginsWith ['c', 't'] r then some ds else none)
      else (if beginsWith ['c', 't'] (c :: r) then some ds else none)

/-- `re.search` for the count regex: leftmost successful anchored attempt. -/
def searchCount : List Char → Option (List Char)
  | [] => none
  | c :: cs =>
    match matchCountAt (c :: cs) with
    | some res => some res
    | none => searchCount cs

/-- The four optional fields produced by `extract_size_components`. -/
structure ParsedAttributes where
  sizeValue : Option String
  sizeMeasure : Option String
  itemCountValue : Option String
  itemCountMeasure : Option String
deriving DecidableEq, Repr

/-- The unit canonicalization chain of `extract_size_components`. -/
def canonSizeMeasure (u : String) : String :=
  if u = "FL OZ" ∨ u = "OZ" then "OZ"
  else if u = "GAL" ∨ u = "GALLON" then "GALLON"
  else if u = "L" then "L"
  else if u = "ML" then "ML"
  else u

/-- `extract_size_components(desc)`: lowercase, search the size and count
regexes, uppercase and canonicalize the size unit, and return the four
optional fields. -/
def extract_size_components (desc : String) : ParsedAttributes :=
  let l := desc.toList.map asciiLower
  let sm := searchSize l
  let cm := searchCount l
  { sizeValue := sm.map (fun p => String.mk p.1)
  , sizeMeasure := sm.map (fun p => canonSizeMeasure (String.mk (p.2.map asciiUpper)))
  , itemCountValue := cm.map (fun d => String.mk d)
  , itemCountMeasure := cm.map (fun _ => "CT") }

/-! ### Category splitting -/

/-- Python `str.split(sep)` on a character list: split at every separator,
keeping empty segments; the empty string yields one empty segment. -/
def pySplitChar (sep : Char) : List Char → List (List Char)
  | [] => [[]]
  | c :: cs =>
    if c = sep then [] :: pySplitChar sep cs
    else
      match pySplitChar sep cs with
      | [] => [[c]]
      | p :: ps => (c :: p) :: ps

/-- Python `str.strip()` (ASCII whitespace model). -/
def pyStripChars (l : List Char) : List Char :=
  ((l.dropWhile isPySpace).reverse.dropWhile isPySpace).reverse

/-- Python `str.split` on strings. -/
def pySplit (sep : Char) (s : String) : List String :=
  (pySplitChar sep s.toList).map String.mk

/-- Python `str.strip` on strings. -/
def pyStrip (s : String) : String :=
  String.mk (pyStripChars s.toList)

/-- Per-row semantics of the category block
`cat_split = col.fillna('').str.split('>', expand=True)` followed by
`cat_split[i].str.strip().fillna("N/A")` (with the frame-level
`if i in cat_split else "N/A"` guard): an absent value is first filled with
`''`, the text is split on `'>'`, and position `i` is the trimmed segment when
the row has more than `i` segments, else the cell is NaN / the column is
missing and the value is `"N/A"`. -/
def catLevel (i : Nat) (o : Option String) : String :=
  let parts := pySplit '>' (o.getD "")
  if h : i < parts.length then pyStrip (parts.get ⟨i, h⟩) else "N/A"

/-! ### Rows and the merge pipeline -/

/-- A pandas cell: `none` models NaN/None. -/
abbrev Cell := Option String

/-- A row keyed by column name. -/
abbrev Row := List (String × Cell)

/-- `astype(str)` on one cell: NaN renders as the text `"nan"`. -/
def cellToStr (c : Cell) : String :=
  c.getD "nan"

/-- First cell stored under the given column name. -/
def lookupCell (c : String) : Row → Option Cell
  | [] => none
  | p :: ps => if p.1 = c then some p.2 else lookupCell c ps

/-- Cell of a row at a column, NaN when the column is absent. -/
def getCell (r : Row) (c : String) : Cell :=
  (lookupCell c r).getD none

/-- The in-place assignment
`partner_df['barcode'] = partner_df['barcode'].astype(str).str.extract(...).fillna('').str.zfill(12)`
restricted to one row: replace every `"barcode"` cell by its normalized
value, leave all other cells alone. -/
def normalizePartnerRow (r : Row) : Row :=
  r.map (fun p =>
    if p.1 = "barcode" then ("barcode", some (normalize_partner_barcode (cellToStr p.2))) else p)

/-- `existing_barcodes = set(partner_df['barcode'])`, read off the
already-normalized partner rows (list membership models set membership). -/
def existingBarcodes (rows : List Row) : List String :=
  rows.map (fun r => cellToStr (getCell r "barcode"))

/-- A source record, restricted to the four columns the pipeline reads after
role resolution.  `barcode` holds the `astype(str)` text of the barcode cell
(a NaN cell reads as `"nan"`); the other three are raw cells. -/
structure SrcRecord where
  barcode : String
  desc : Cell
  brand : Cell
  productType : Cell
deriving DecidableEq, Repr

/-- The source-side column overwrite `upc_df[upc_col] = ...normalized...`. -/
def normalizeSrcRecords (src : List SrcRecord) : List SrcRecord :=
  src.map (fun r => { r with barcode := normalize_source_barcode r.barcode })

/-- `upc_df['STATUS'] = upc_df[upc_col].apply(lambda x: 'Existing' if x in existing_barcodes else 'New')`. -/
def labelRecords (existing : List String) (src : List SrcRecord) : List (SrcRecord × String) :=
  src.map (fun r => (r, statusOf existing r.barcode))

/-- `new_upcs_df = upc_df[upc_df['STATUS'] == 'New']`. -/
def newRecords (existing : List String) (src : List SrcRecord) : List SrcRecord :=
  ((labelRecords existing src).filter (fun p => p.2 == "New")).map Prod.fst

/-- The `new_rows` dictionary of the dynamic-header variant, for one New
record (whose barcode is already normalized).  `hasBrand` / `hasPT` model
whether the optional brand and `product_type` columns were detected. -/
def buildNewRow (hasBrand hasPT : Bool) (r : SrcRecord) : Row :=
  let parsed := extract_size_components (r.desc.getD "")
  [ ("barcode", some r.barcode)
  , ("bh2Brand", if hasBrand then r.brand.map asciiUpperStr else some "N/A")
  , ("name", r.desc)
  , ("description", r.desc)
  , ("ch1Department", some (if hasPT then catLevel 0 r.productType else "N/A"))
  , ("ch2Category", some (if hasPT then catLevel 1 r.productType else "N/A"))
  , ("ch3Segment", some (if hasPT then catLevel 2 r.productType else "N/A"))
  , ("itemCountValue", parsed.itemCountValue)
  , ("itemCountMeasure", parsed.itemCountMeasure)
  , ("sizeValue", parsed.sizeValue)
  , ("sizeMeasure", parsed.sizeMeasure)
  , ("partnerProduct", some "Y")
  , ("awardPoints", some "N") ]

/-- The projection block: `for col in partner_df.columns: if col not in
new_rows.columns: new_rows[col] = None` followed by
`new_rows = new_rows[partner_df.columns]` — for each catalog column in order,
take the constructed cell or NaN, dropping constructed fields outside the
catalog schema. -/
def projectRow (pcols : List String) (r : Row) : Row :=
  pcols.map (fun c => (c, (lookupCell c r).getD none))

/-- The produced spreadsheet: the catalog's column order plus the full row
sequence. -/
structure MergeOutput where
  cols : List String
  rows : List Row
deriving DecidableEq, Repr

/-- The whole per-run transformation behind the "Merge & Extract" button:
normalize both barcode columns, label and filter the source records, build and
project the New rows, and concatenate them after the (barcode-normalized)
partner rows (`merged_df = pd.concat([partner_df, new_rows], ignore_index=True)`). -/
def runMerge (hasBrand hasPT : Bool) (pcols : List String) (prows : List Row)
    (src : List SrcRecord) : MergeOutput :=
  let partner2 := prows.map normalizePartnerRow
  let existing := existingBarcodes partner2
  let newRecs := newRecords existing (normalizeSrcRecords src)
  let newRows := newRecs.map (fun r => projectRow pcols (buildNewRow hasBrand hasPT r))
  ⟨pcols, partner2 ++ newRows⟩

end UPCMerge

/-! ### Helper lemmas -/

namespace UPCMerge

theorem mem_firstDigitRun {l : List Char} {c : Char} (h : c ∈ firstDigitRun l) :
    c.isDigit = true := by
  induction l with
  | nil => simp [firstDigitRun] at h
  | cons a as ih =>
    simp only [firstDigitRun] at h
    by_cases ha : a.isDigit = true
    · rw [if_pos ha] at h
      rcases List.mem_cons.mp h with rfl | h2
      · exact ha
      · exact List.mem_takeWhile_imp h2
    · rw [if_neg ha] at h
      exact ih h

theorem takeWhile_append_stop {p : Char → Bool} {c : Char} (hc : p c = false)
    (as xs : List Char) : List.takeWhile p (as ++ c :: xs) = List.takeWhile p as := by
  induction as with
  | nil => simp [List.takeWhile_cons, hc]
  | cons b bs ih =>
    by_cases hb : p b = true
    · simp [List.takeWhile_cons, hb, ih]
    · simp [List.takeWhile_cons, hb]

theorem firstDigitRun_append_of_any : ∀ (l : List Char), l.any Char.isDigit = true →
    ∀ {c : Char}, Char.isDigit c = false → ∀ (xs : List Char),
    firstDigitRun (l ++ c :: xs) = firstDigitRun l := by
  intro l
  induction l with
  | nil => intro h; simp at h
  | cons a as ih =>
    intro h c hc xs
    simp only [List.cons_append, firstDigitRun]
    by_cases ha : a.isDigit = true
    · rw [if_pos ha, if_pos ha]
      simp only [List.append_eq]
      rw [takeWhile_append_stop hc]
    · rw [if_neg ha, if_neg ha]
      have has : as.any Char.isDigit = true := by
        rcases List.any_eq_true.mp h with ⟨x, hx, hdx⟩
        rcases List.mem_cons.mp hx with rfl | hx2
        · exact absurd hdx ha
        · exact List.any_eq_true.mpr ⟨x, hx2, hdx⟩
      exact ih has hc xs

theorem firstDigitRun_append_of_none : ∀ (l : List Char), l.any Char.isDigit = false →
    ∀ (xs : List Char), firstDigitRun (l ++ xs) = firstDigitRun xs := by
  intro l
  induction l with
  | nil => intro _ xs; rfl
  | cons a as ih =>
    intro h xs
    rw [List.any_cons, Bool.or_eq_false_iff] at h
    simp only [List.cons_append, firstDigitRun, h.1]
    exact ih h.2 xs

theorem firstDigitRun_eq_nil {l : List Char} (h : l.any Char.isDigit = false) :
    firstDigitRun l = [] := by
  have := firstDigitRun_append_of_none l h []
  simpa using this

/-- Stripping a trailing `".0"` before extracting the first digit run never
changes the zero-filled result: the strip can only delete a final digit run
`"0"` that had no digit before it, and `zfill` turns both `""` and `"0"` into
the same all-zero string. -/
theorem zfill_run_strip (l : List Char) :
    zfillChars 12 (firstDigitRun (stripTrailingDot0 l)) = zfillChars 12 (firstDigitRun l) := by
  unfold stripTrailingDot0
  by_cases h : l.reverse.take 2 = ['0', '.']
  · rw [if_pos h]
    have hl : l = (l.reverse.drop 2).reverse ++ ['.', '0'] := by
      conv_lhs => rw [← l.reverse_reverse, ← List.take_append_drop 2 l.reverse]
      rw [List.reverse_append, h]
      rfl
    by_cases hd : (l.reverse.drop 2).reverse.any Char.isDigit = true
    · conv_rhs => rw [hl]
      rw [firstDigitRun_append_of_any _ hd (by decide) ['0']]
    · have hd' : (l.reverse.drop 2).reverse.any Char.isDigit = false := by
        simpa using hd
      conv_rhs => rw [hl]
      rw [firstDigitRun_append_of_none _ hd', firstDigitRun_eq_nil hd']
      decide
  · rw [if_neg h]

theorem source_eq_partner (s : String) :
    normalize_source_barcode s = normalize_partner_barcode s := by
  show String.mk (zfillChars 12 (firstDigitRun (stripTrailingDot0 s.toList)))
      = String.mk (zfillChars 12 (firstDigitRun s.toList))
  rw [zfill_run_strip]

theorem zfillChars_of_digits {l : List Char} (h : ∀ c ∈ l, c.isDigit = true) (w : Nat) :
    zfillChars w l = List.replicate (w - l.length) '0' ++ l := by
  cases l with
  | nil => simp [zfillChars]
  | cons c cs =>
    have hc := h c (List.mem_cons_self c cs)
    have h1 : ¬ (c = '+' ∨ c = '-') := by
      rintro (rfl | rfl) <;> exact absurd hc (by decide)
    simp only [zfillChars, if_neg h1]

theorem mem_stripTrailingDot0 {l : List Char} {c : Char} (h : c ∈ stripTrailingDot0 l) :
    c ∈ l := by
  unfold stripTrailingDot0 at h
  split at h
  · rw [List.mem_reverse] at h
    exact List.mem_reverse.mp (List.mem_of_mem_drop h)
  · exact h

theorem lookupCell_eq_none {r : Row} {c : String} (h : ∀ q ∈ r, q.1 ≠ c) :
    lookupCell c r = none := by
  induction r with
  | nil => rfl
  | cons p ps ih =>
    simp only [lookupCell]
    rw [if_neg (h p (List.mem_cons_self p ps))]
    exact ih (fun q hq => h q (List.mem_cons_of_mem p hq))

theorem newRecords_eq_filter (existing : List String) :
    ∀ (l : List SrcRecord),
      newRecords existing l = l.filter (fun r => decide (r.barcode ∉ existing)) := by
  intro l
  induction l with
  | nil => rfl
  | cons a as ih =>
    by_cases h : a.barcode ∈ existing
    · have h1 : statusOf existing a.barcode = "Existing" := if_pos h
      have h2 : ((statusOf existing a.barcode) == "New") = false := by rw [h1]; decide
      have h3 : decide (a.barcode ∉ existing) = false := by simp [h]
      simp only [newRecords, labelRecords, List.map_cons, List.filter_cons, h2, h3,
        Bool.false_eq_true, if_false] at ih ⊢
      exact ih
    · have h1 : statusOf existing a.barcode = "New" := if_neg h
      have h2 : ((statusOf existing a.barcode) == "New") = true := by rw [h1]; decide
      have h3 : decide (a.barcode ∉ existing) = true := by simp [h]
      simp only [newRecords, labelRecords, List.map_cons, List.filter_cons, h2, h3,
        if_true, List.map_cons] at ih ⊢
      rw [ih]

theorem matchUnit_mem {l u : List Char} (h : matchUnit l = some u) : u ∈ unitTokens :=
  List.mem_of_find?_eq_some h

theorem matchUnitOptSpace_mem {l u : List Char}
    (h : matchUnitOptSpace l = some u) : u ∈ unitTokens := by
  cases l with
  | nil => simp [matchUnitOptSpace] at h
  | cons c r =>
    simp only [matchUnitOptSpace] at h
    split at h
    · exact matchUnit_mem h
    · exact matchUnit_mem h

theorem matchSizeAt_mem {l : List Char} {p : List Char × List Char}
    (h : matchSizeAt l = some p) : p.2 ∈ unitTokens := by
  cases hn : matchNumber l with
  | none =>
    simp only [matchSizeAt, hn] at h
    exact absurd h (by simp)
  | some np =>
    obtain ⟨num, rest⟩ := np
    simp only [matchSizeAt, hn] at h
    cases hu : matchUnitOptSpace rest with
    | none => rw [hu] at h; exact absurd h (by simp)
    | some u =>
      rw [hu] at h
      injection h with h2
      rw [← h2]
      exact matchUnitOptSpace_mem hu

theorem searchSize_mem : ∀ {l : List Char} {p : List Char × List Char},
    searchSize l = some p → p.2 ∈ unitTokens := by
  intro l
  induction l with
  | nil => intro p h; simp [searchSize] at h
  | cons c cs ih =>
    intro p h
    simp only [searchSize] at h
    cases hm : matchSizeAt (c :: cs) with
    | some res =>
      rw [hm] at h
      have : res = p := by cases h; rfl
      rw [← this]
      exact matchSizeAt_mem hm
    | none =>
      rw [hm] at h
      exact ih h

theorem canon_token {t : List Char} (h : t ∈ unitTokens) :
    canonSizeMeasure (String.mk (t.map asciiUpper)) = "OZ" ∨
    canonSizeMeasure (String.mk (t.map asciiUpper)) = "GALLON" ∨
    canonSizeMeasure (String.mk (t.map asciiUpper)) = "L" ∨
    canonSizeMeasure (String.mk (t.map asciiUpper)) = "ML" := by
  simp only [unitTokens, List.mem_cons, List.not_mem_nil, or_false] at h
  rcases h with rfl | rfl | rfl | rfl | rfl | rfl
  · left; decide
  · left; decide
  · right; right; left; decide
  · right; right; right; decide
  · right; left; decide
  · right; left; decide

end UPCMerge

/-! ### Claim theorems -/

namespace UPCMerge

/-- Claim C1: for every source record and catalog, the reconciler labels a
record `"Existing"` iff its normalized barcode string-equals some member of
the normalized catalog barcode collection and `"New"` otherwise, and the
records passed downstream are exactly the `"New"`-labeled ones, in source
order, with duplicate barcodes labeled independently and not deduplicated
(the downstream list is the plain order-preserving filter of the labeled
source list). -/
theorem spec_C1 (existing : List String) (src : List SrcRecord) :
    (∀ p ∈ labelRecords existing (normalizeSrcRecords src),
        (p.2 = "Existing" ↔ p.1.barcode ∈ existing) ∧
        (p.2 = "New" ↔ p.1.barcode ∉ existing)) ∧
    newRecords existing (normalizeSrcRecords src)
      = (normalizeSrcRecords src).filter (fun r => decide (r.barcode ∉ existing)) := by
  constructor
  · intro p hp
    rcases List.mem_map.mp hp with ⟨r, _, rfl⟩
    by_cases h : r.barcode ∈ existing
    · have h1 : statusOf existing r.barcode = "Existing" := if_pos h
      refine ⟨⟨fun _ => h, fun _ => h1⟩, ?_, ?_⟩
      · intro hnew
        have hnew2 : statusOf existing r.barcode = "New" := hnew
        rw [h1] at hnew2
        exact absurd hnew2 (by decide)
      · intro hno
        exact absurd h hno
    · have h1 : statusOf existing r.barcode = "New" := if_neg h
      refine ⟨⟨?_, fun hmem => absurd hmem h⟩, fun _ => h, fun _ => h1⟩
      intro hex
      have hex2 : statusOf existing r.barcode = "Existing" := hex
      rw [h1] at hex2
      exact absurd hex2 (by decide)
  · exact newRecords_eq_filter existing _

/-- Witness for C1 at a concrete catalog and source record. -/
theorem spec_C1_witness :
    ("New" = "Existing" ↔ ("000000000034" : String) ∈ (["000000000012"] : List String)) ∧
    ("New" = "New" ↔ ("000000000034" : String) ∉ (["000000000012"] : List String)) :=
  (spec_C1 ["000000000012"] [⟨"34", none, none, none⟩]).1
    ((⟨"000000000034", none, none, none⟩ : SrcRecord), "New") (by decide)

/-- Claim C2: for every raw barcode text the normalizer's output has length at
least 12 and consists only of decimal digits, keeps exactly the first maximal
digit run of the text after stripping a trailing `".0"` (as the suffix after
the all-`'0'` padding), pads to 12 when shorter, never truncates longer runs,
and an input with no digit normalizes to `"000000000000"`. -/
theorem spec_C2 (s : String) :
    12 ≤ (normalize_source_barcode s).length ∧
    (∀ c ∈ (normalize_source_barcode s).toList, c.isDigit = true) ∧
    (normalize_source_barcode s).toList
      = List.replicate (12 - (firstDigitRun (stripTrailingDot0 s.toList)).length) '0'
          ++ firstDigitRun (stripTrailingDot0 s.toList) ∧
    (12 < (firstDigitRun (stripTrailingDot0 s.toList)).length →
      (normalize_source_barcode s).length
        = (firstDigitRun (stripTrailingDot0 s.toList)).length) ∧
    ((∀ c ∈ s.toList, c.isDigit = false) → normalize_source_barcode s = "000000000000") := by
  have hdig : ∀ c ∈ firstDigitRun (stripTrailingDot0 s.toList), c.isDigit = true :=
    fun c hc => mem_firstDigitRun hc
  have hz : (normalize_source_barcode s).toList
      = List.replicate (12 - (firstDigitRun (stripTrailingDot0 s.toList)).length) '0'
          ++ firstDigitRun (stripTrailingDot0 s.toList) :=
    zfillChars_of_digits hdig 12
  have hlen : (normalize_source_barcode s).length
      = (12 - (firstDigitRun (stripTrailingDot0 s.toList)).length)
        + (firstDigitRun (stripTrailingDot0 s.toList)).length := by
    show (normalize_source_barcode s).toList.length = _
    rw [hz, List.length_append, List.length_replicate]
  refine ⟨by rw [hlen]; omega, ?_, hz, by intro h12; rw [hlen]; omega, ?_⟩
  · intro c hc
    rw [hz] at hc
    rcases List.mem_append.mp hc with h0 | h1
    · rw [List.eq_of_mem_replicate h0]; decide
    · exact hdig c h1
  · intro hnd
    have hnil : firstDigitRun (stripTrailingDot0 s.toList) = [] := by
      apply firstDigitRun_eq_nil
      rw [List.any_eq_false]
      intro c hc
      simpa using hnd c (mem_stripTrailingDot0 hc)
    have hdef : normalize_source_barcode s
        = zfill 12 (String.mk (firstDigitRun (stripTrailingDot0 s.toList))) := rfl
    rw [hdef, hnil]
    decide

/-- Witness for C2: a digit-free input normalizes to the all-zero string. -/
theorem spec_C2_witness : normalize_source_barcode "ABC" = "000000000000" :=
  (spec_C2 "ABC").2.2.2.2 (by decide)

/-- Claim C3: the output row sequence is the catalog rows followed by the
projected New rows in order, so its length is the catalog row count plus the
New record count, exactly. -/
theorem spec_C3 (hasBrand hasPT : Bool) (pcols : List String) (prows : List Row)
    (src : List SrcRecord) :
    (runMerge hasBrand hasPT pcols prows src).rows.length
      = prows.length + (newRecords (existingBarcodes (prows.map normalizePartnerRow))
          (normalizeSrcRecords src)).length ∧
    (runMerge hasBrand hasPT pcols prows src).rows
      = prows.map normalizePartnerRow
        ++ (newRecords (existingBarcodes (prows.map normalizePartnerRow))
              (normalizeSrcRecords src)).map
            (fun r => projectRow pcols (buildNewRow hasBrand hasPT r)) := by
  refine ⟨?_, rfl⟩
  show (prows.map normalizePartnerRow ++ _).length = _
  rw [List.length_append, List.length_map, List.length_map]

/-- Claim C4: the output's column sequence equals the catalog's exactly; every
appended row's field sequence follows the catalog column order, a catalog
column absent from the constructed row is filled with null, and constructed
fields outside the catalog schema are dropped. -/
theorem spec_C4 (hasBrand hasPT : Bool) (pcols : List String) (prows : List Row)
    (src : List SrcRecord) :
    (runMerge hasBrand hasPT pcols prows src).cols = pcols ∧
    (∀ r ∈ (runMerge hasBrand hasPT pcols prows src).rows.drop prows.length,
        r.map Prod.fst = pcols) ∧
    (∀ r : Row, (projectRow pcols r).map Prod.fst = pcols) ∧
    (∀ r : Row, ∀ p ∈ projectRow pcols r,
        p.1 ∈ pcols ∧ p.2 = (lookupCell p.1 r).getD none) ∧
    (∀ r : Row, ∀ c ∈ pcols, (∀ q ∈ r, q.1 ≠ c) → (c, (none : Cell)) ∈ projectRow pcols r) := by
  have hproj : ∀ r : Row, (projectRow pcols r).map Prod.fst = pcols := by
    intro r
    unfold projectRow
    rw [List.map_map]
    exact List.map_id pcols
  refine ⟨rfl, ?_, hproj, ?_, ?_⟩
  · intro r hr
    have hdrop : (runMerge hasBrand hasPT pcols prows src).rows.drop prows.length
        = (newRecords (existingBarcodes (prows.map normalizePartnerRow))
            (normalizeSrcRecords src)).map
              (fun rec => projectRow pcols (buildNewRow hasBrand hasPT rec)) := by
      show (prows.map normalizePartnerRow ++ _).drop prows.length = _
      rw [← List.length_map prows normalizePartnerRow, List.drop_left]
    rw [hdrop] at hr
    rcases List.mem_map.mp hr with ⟨rec, _, rfl⟩
    exact hproj _
  · intro r p hp
    rcases List.mem_map.mp hp with ⟨c, hc, rfl⟩
    exact ⟨hc, rfl⟩
  · intro r c hc h
    refine List.mem_map.mpr ⟨c, hc, ?_⟩
    rw [lookupCell_eq_none h]
    rfl

/-- Witness for C4 at a concrete schema and row. -/
theorem spec_C4_witness :
    (("colB", (none : Cell)) ∈ projectRow ["colA", "colB"] [("colA", some "v")]) := by
  refine (spec_C4 false false ["colA", "colB"] [] []).2.2.2.2
    [("colA", some "v")] "colB" (by decide) ?_
  intro q hq
  rcases List.mem_singleton.mp hq with rfl
  decide

end UPCMerge

namespace UPCMerge

/-- Counterexample to C5: a catalog row with barcode `"123"` does not pass
through unchanged — the in-place normalization rewrites its barcode cell to
`"000000000123"` in the output. -/
theorem spec_C5_counterexample :
    (runMerge false false ["barcode", "name"]
        [[("barcode", some "123"), ("name", some "Widget")]] []).rows
      = [[("barcode", some "000000000123"), ("name", some "Widget")]] ∧
    (runMerge false false ["barcode", "name"]
        [[("barcode", some "123"), ("name", some "Widget")]] []).rows
      ≠ [[("barcode", some "123"), ("name", some "Widget")]] := by
  refine ⟨by decide, by decide⟩

/-- Claim C5 as amended: the catalog's rows appear first in the output with
every non-barcode cell unchanged, but each `"barcode"` cell is overwritten
with its normalized value (so it equals the input value only when that value
was already in normalized form). -/
theorem spec_C5 (hasBrand hasPT : Bool) (pcols : List String) (prows : List Row)
    (src : List SrcRecord) :
    (runMerge hasBrand hasPT pcols prows src).rows.take prows.length
      = prows.map normalizePartnerRow ∧
    (∀ r ∈ prows, ∀ p ∈ r,
        (p.1 ≠ "barcode" → p ∈ normalizePartnerRow r) ∧
        (p.1 = "barcode" →
          ("barcode", some (normalize_partner_barcode (cellToStr p.2)))
            ∈ normalizePartnerRow r)) := by
  constructor
  · show (prows.map normalizePartnerRow ++ _).take prows.length = _
    rw [← List.length_map prows normalizePartnerRow, List.take_left]
  · intro r _ p hp
    constructor
    · intro hne
      unfold normalizePartnerRow
      refine List.mem_map.mpr ⟨p, hp, ?_⟩
      show (if p.1 = "barcode"
          then ("barcode", some (normalize_partner_barcode (cellToStr p.2))) else p) = p
      exact if_neg hne
    · intro heq
      unfold normalizePartnerRow
      refine List.mem_map.mpr ⟨p, hp, ?_⟩
      show (if p.1 = "barcode"
          then ("barcode", some (normalize_partner_barcode (cellToStr p.2))) else p)
        = ("barcode", some (normalize_partner_barcode (cellToStr p.2)))
      exact if_pos heq

/-- Witness for C5 (amended) at a concrete catalog row: the non-barcode cell
survives unchanged. -/
theorem spec_C5_witness :
    ("name", (some "Widget" : Cell))
      ∈ normalizePartnerRow [("barcode", some "123"), ("name", some "Widget")] :=
  ((spec_C5 false false ["barcode", "name"]
      [[("barcode", some "123"), ("name", some "Widget")]] []).2
    [("barcode", some "123"), ("name", some "Widget")] (by decide)
    ("name", some "Widget") (by decide)).1 (by decide)

/-- Counterexample to C6: an absent (null) category value does not yield the
sentinel `"N/A"` at position 0 — the `fillna('')` applied before the split
makes the department the empty string instead. -/
theorem spec_C6_counterexample : catLevel 0 none ≠ "N/A" := by decide

/-- Claim C6 as amended: the splitter splits on `">"`, trims each segment,
takes positions 0, 1, 2, and yields `"N/A"` for any position beyond the
split's length; for an absent (null) source value positions 1 and 2 yield
`"N/A"` but position 0 yields the empty string; the two scenario examples
hold as stated. -/
theorem spec_C6 :
    (∀ (o : Option String) (i : Nat),
        (pySplit '>' (o.getD "")).length ≤ i → catLevel i o = "N/A") ∧
    (∀ (s : String) (i : Nat) (h : i < (pySplit '>' s).length),
        catLevel i (some s) = pyStrip ((pySplit '>' s).get ⟨i, h⟩)) ∧
    catLevel 0 none = "" ∧ catLevel 1 none = "N/A" ∧ catLevel 2 none = "N/A" ∧
    catLevel 0 (some "Beverages > Soda > Cola") = "Beverages" ∧
    catLevel 1 (some "Beverages > Soda > Cola") = "Soda" ∧
    catLevel 2 (some "Beverages > Soda > Cola") = "Cola" ∧
    catLevel 0 (some "Snacks") = "Snacks" ∧
    catLevel 1 (some "Snacks") = "N/A" ∧
    catLevel 2 (some "Snacks") = "N/A" := by
  refine ⟨?_, ?_, by decide, by decide, by decide, by decide, by decide, by decide,
    by decide, by decide, by decide⟩
  · intro o i h
    simp only [catLevel]
    rw [dif_neg (Nat.not_lt.mpr h)]
  · intro s i h
    simp only [catLevel, Option.getD_some]
    rw [dif_pos h]

/-- Witness for C6 (amended): a position beyond the split's length yields the
sentinel. -/
theorem spec_C6_witness : catLevel 7 (some "a") = "N/A" :=
  spec_C6.1 (some "a") 7 (by decide)

/-- Claim C7: the source-side and catalog-side barcode normalizations agree on
every raw string value (the extra trailing-`".0"` strip on the source side
never changes the padded result), and the scenario holds: source
`"12345678905.0"` normalizes to `"012345678905"` and is labeled `"Existing"`
against a catalog containing `"012345678905"`. -/
theorem spec_C7 :
    (∀ s : String, normalize_source_barcode s = normalize_partner_barcode s) ∧
    normalize_source_barcode "12345678905.0" = "012345678905" ∧
    normalize_partner_barcode "012345678905" = "012345678905" ∧
    statusOf [normalize_partner_barcode "012345678905"]
      (normalize_source_barcode "12345678905.0") = "Existing" := by
  refine ⟨source_eq_partner, by decide, by decide, by decide⟩

/-- Claim C8: the description parser only ever produces the canonical size
units `OZ`, `GALLON`, `L`, `ML` and the count unit `CT`, pairs a value with a
unit exactly when a match exists, and the first-match scenarios hold,
including `"Water Bottles 24 ct 16.9 oz"` giving size `16.9 OZ` and count
`24 CT`. -/
theorem spec_C8 :
    (∀ d : String,
        ((extract_size_components d).sizeMeasure = none ∨
         (extract_size_components d).sizeMeasure = some "OZ" ∨
         (extract_size_components d).sizeMeasure = some "GALLON" ∨
         (extract_size_components d).sizeMeasure = some "L" ∨
         (extract_size_components d).sizeMeasure = some "ML") ∧
        ((extract_size_components d).itemCountMeasure = none ∨
         (extract_size_components d).itemCountMeasure = some "CT") ∧
        ((extract_size_components d).sizeValue = none ↔
         (extract_size_components d).sizeMeasure = none) ∧
        ((extract_size_components d).itemCountValue = none ↔
         (extract_size_components d).itemCountMeasure = none)) ∧
    extract_size_components "Water Bottles 24 ct 16.9 oz"
      = ⟨some "16.9", some "OZ", some "24", some "CT"⟩ ∧
    extract_size_components "Coca-Cola 12 oz" = ⟨some "12", some "OZ", none, none⟩ ∧
    extract_size_components "1 oz and 2 gallon" = ⟨some "1", some "OZ", none, none⟩ ∧
    extract_size_components "12 fl oz can" = ⟨some "12", some "OZ", none, none⟩ ∧
    extract_size_components "Milk 1 GALLON" = ⟨some "1", some "GALLON", none, none⟩ ∧
    extract_size_components "bottle 1.5 l" = ⟨some "1.5", some "L", none, none⟩ ∧
    extract_size_components "can 500ml" = ⟨some "500", some "ML", none, none⟩ ∧
    extract_size_components "nothing here" = ⟨none, none, none, none⟩ := by
  refine ⟨?_, by decide, by decide, by decide, by decide, by decide, by decide,
    by decide, by decide⟩
  intro d
  refine ⟨?_, ?_, ?_, ?_⟩
  · show (searchSize (d.toList.map asciiLower)).map
        (fun p => canonSizeMeasure (String.mk (p.2.map asciiUpper))) = none ∨ _
    cases hs : searchSize (d.toList.map asciiLower) with
    | none => left; rfl
    | some p =>
      rcases canon_token (searchSize_mem hs) with h | h | h | h
      · right; left
        show (searchSize (d.toList.map asciiLower)).map
          (fun p => canonSizeMeasure (String.mk (p.2.map asciiUpper))) = some "OZ"
        rw [hs, Option.map_some', h]
      · right; right; left
        show (searchSize (d.toList.map asciiLower)).map
          (fun p => canonSizeMeasure (String.mk (p.2.map asciiUpper))) = some "GALLON"
        rw [hs, Option.map_some', h]
      · right; right; right; left
        show (searchSize (d.toList.map asciiLower)).map
          (fun p => canonSizeMeasure (String.mk (p.2.map asciiUpper))) = some "L"
        rw [hs, Option.map_some', h]
      · right; right; right; right
        show (searchSize (d.toList.map asciiLower)).map
          (fun p => canonSizeMeasure (String.mk (p.2.map asciiUpper))) = some "ML"
        rw [hs, Option.map_some', h]
  · show (searchCount (d.toList.map asciiLower)).map (fun _ => "CT") = none ∨ _
    cases hs : searchCount (d.toList.map asciiLower) with
    | none => left; rfl
    | some p =>
      right
      show (searchCount (d.toList.map asciiLower)).map (fun _ => "CT") = some "CT"
      rw [hs, Option.map_some']
  · show (searchSize (d.toList.map asciiLower)).map (fun p => String.mk p.1) = none ↔
      (searchSize (d.toList.map asciiLower)).map
        (fun p => canonSizeMeasure (String.mk (p.2.map asciiUpper))) = none
    cases searchSize (d.toList.map asciiLower) <;> simp
  · show (searchCount (d.toList.map asciiLower)).map (fun d => String.mk d) = none ↔
      (searchCount (d.toList.map asciiLower)).map (fun _ => "CT") = none
    cases searchCount (d.toList.map asciiLower) <;> simp

/-- Counterexample to C9: the auto-detect variant's normalization does not
coincide with the digit-extraction variants' — on `"12345678905.0"` it keeps
the trailing `".0"` and produces a non-digit 13-character value. -/
theorem spec_C9_counterexample :
    normalize_auto_barcode "12345678905.0" = "12345678905.0" ∧
    normalize_source_barcode "12345678905.0" = "012345678905" ∧
    normalize_auto_barcode "12345678905.0" ≠ normalize_source_barcode "12345678905.0" := by
  refine ⟨by decide, by decide, by decide⟩

/-- Claim C9 as amended: the auto-detect variant's normalization agrees with
the digit-extraction variants' exactly on inputs that are pure digit strings;
on values carrying a float artifact such as `"12345678905.0"` the variants
genuinely differ. -/
theorem spec_C9 (s : String) (h : ∀ c ∈ s.toList, c.isDigit = true) :
    normalize_auto_barcode s = normalize_source_barcode s := by
  have hstrip : stripTrailingDot0 s.toList = s.toList := by
    unfold stripTrailingDot0
    rw [if_neg]
    intro hcon
    have hdot : '.' ∈ s.toList.reverse.take 2 := by rw [hcon]; decide
    have hmem : '.' ∈ s.toList := List.mem_reverse.mp (List.mem_of_mem_take hdot)
    exact absurd (h '.' hmem) (by decide)
  have hrun : firstDigitRun s.toList = s.toList := by
    cases hl : s.toList with
    | nil => rfl
    | cons a as =>
      have ha : a.isDigit = true := by rw [hl] at h; exact h a (List.mem_cons_self a as)
      have has : List.takeWhile Char.isDigit as = as := by
        rw [List.takeWhile_eq_self_iff]
        intro c hc
        rw [hl] at h
        exact h c (List.mem_cons_of_mem a hc)
      simp only [firstDigitRun, if_pos ha, has]
  show zfill 12 s = zfill 12 (String.mk (firstDigitRun (stripTrailingDot0 s.toList)))
  rw [hstrip, hrun]
  cases s
  rfl

/-- Witness for C9 (amended) at a pure digit string. -/
theorem spec_C9_witness : normalize_auto_barcode "123" = normalize_source_barcode "123" :=
  spec_C9 "123" (by decide)

/-- Claim C10: the size and count regexes are not word-bounded, so a unit
token matching as a proper head of a longer word still counts: `"2 lb"`
parses as size `2 L` and `"6 ctn"` parses as count `6 CT`. -/
theorem spec_C10 :
    extract_size_components "2 lb"
      = ⟨some "2", some "L", none, none⟩ ∧
    extract_size_components "6 ctn"
      = ⟨none, none, some "6", some "CT"⟩ := by
  refine ⟨by decide, by decide⟩

end UPCMerge
